import Mathlib

/-!
Verification of the protocat schema-less protobuf wire-format decoder
(`src/main.rs`) against its natural-language specification.

The embedding models the byte buffer as a `List Nat` whose elements are
u8 values (< 256).  The nom combinator results are modelled by `PResult`:
`ok rest val` is nom's `Ok((rest, val))`, `err` is the recoverable
`Err::Error` (all such errors in this program arise from running out of
input, the spec's `UnexpectedEnd`, or from `all_consuming`, the spec's
`TrailingBytes`), and `fail` is the fatal `Err::Failure` (raised only for
an unknown wire-type code, the spec's `InvalidWireType`).
-/

/-- Wire types, from `enum WireType` in `src/main.rs`. -/
inductive WireType where
  | VarInt
  | Int64
  | LengthPrefixed
  | StartGroup
  | EndGroup
  | Int32
deriving DecidableEq

/-- Field tag, from `struct ProtoTag`: a wire type and a field number. -/
structure ProtoTag where
  wire_type : WireType
  tag_number : Nat
deriving DecidableEq

/-- Field values, from `enum WireValue`.  The `LengthPrefixed` payload is
the borrowed byte slice, modelled as the list of its bytes. -/
inductive WireValue where
  | VarInt (v : Nat)
  | Int64 (v : Nat)
  | LengthPrefixed (d : List Nat)
  | StartGroup
  | EndGroup
  | Int32 (v : Nat)
deriving DecidableEq

/-- A decoded field, from `struct ProtoField`. -/
structure ProtoField where
  tag_number : Nat
  value : WireValue
deriving DecidableEq

/-- Result of a nom parser over a byte list.  `ok rest val` carries the
remaining input and the parsed value; `err` is nom's recoverable
`Err::Error`; `fail` is nom's fatal `Err::Failure`. -/
inductive PResult (α : Type) where
  | ok (rest : List Nat) (val : α)
  | err
  | fail
deriving DecidableEq

/-- The nom `map` combinator applied to a parser result. -/
def PResult.map {α β : Type} (f : α → β) : PResult α → PResult β
  | .ok rest v => .ok rest (f v)
  | .err => .err
  | .fail => .fail

/-- Unsigned base-128 varint decoder, from `fn base128_vlq` in
`src/main.rs`.  `many_till` reads continuation bytes (high bit set) until
a terminal byte (high bit clear); the terminal byte's low 7 bits are the
most significant group and each earlier byte contributes a less
significant group.  The accumulator is a `u64`, so each shift wraps
modulo 2^64 = 18446744073709551616. -/
def base128_vlq : List Nat → PResult Nat
  | [] => .err
  | b :: rest =>
    if b &&& 0x80 = 0 then
      .ok rest (b &&& 0x7f)
    else
      match base128_vlq rest with
      | .ok rest' v => .ok rest' ((v * 128 + (b &&& 0x7f)) % 18446744073709551616)
      | .err => .err
      | .fail => .fail

/-- The nom `take` combinator (complete version): consume exactly `count`
bytes, or fail recoverably when fewer remain. -/
def take (count : Nat) (input : List Nat) : PResult (List Nat) :=
  if count ≤ input.length then .ok (input.drop count) (input.take count) else .err

/-- Length-prefixed slice reader, from `fn length_take` in `src/main.rs`,
at its only instantiation `length_take(base128_vlq)`: decode a varint
length `n`, then take exactly `n` bytes. -/
def length_take (input : List Nat) : PResult (List Nat) :=
  match base128_vlq input with
  | .ok rest n => take n rest
  | .err => .err
  | .fail => .fail

/-- Little-endian u32 reader, nom's `le_u32` (complete). -/
def le_u32 : List Nat → PResult Nat
  | b0 :: b1 :: b2 :: b3 :: rest =>
      .ok rest (b0 + 256 * (b1 + 256 * (b2 + 256 * b3)))
  | _ => .err

/-- Little-endian u64 reader, nom's `le_u64` (complete). -/
def le_u64 : List Nat → PResult Nat
  | b0 :: b1 :: b2 :: b3 :: b4 :: b5 :: b6 :: b7 :: rest =>
      .ok rest (b0 + 256 * (b1 + 256 * (b2 + 256 * (b3 + 256 *
        (b4 + 256 * (b5 + 256 * (b6 + 256 * b7)))))))
  | _ => .err

/-- Tag parser, from `impl ProtoTag { fn parse }` in `src/main.rs`: one
varint whose low 3 bits select the wire type and whose remaining bits are
the field number.  Codes 6 and 7 raise nom's fatal `Err::Failure`
(the spec's `InvalidWireType`). -/
def ProtoTag.parse (input : List Nat) : PResult ProtoTag :=
  match base128_vlq input with
  | .ok rest tag =>
    match tag &&& 0x7 with
    | 0 => .ok rest ⟨WireType.VarInt, tag >>> 3⟩
    | 1 => .ok rest ⟨WireType.Int64, tag >>> 3⟩
    | 2 => .ok rest ⟨WireType.LengthPrefixed, tag >>> 3⟩
    | 3 => .ok rest ⟨WireType.StartGroup, tag >>> 3⟩
    | 4 => .ok rest ⟨WireType.EndGroup, tag >>> 3⟩
    | 5 => .ok rest ⟨WireType.Int32, tag >>> 3⟩
    | _ => .fail
  | .err => .err
  | .fail => .fail

/-- Field parser, from `impl ProtoField { fn parse }` in `src/main.rs`:
a tag followed by the wire-type-specific value.  `StartGroup` and
`EndGroup` consume no value bytes. -/
def ProtoField.parse (input : List Nat) : PResult ProtoField :=
  match ProtoTag.parse input with
  | .ok rest tag =>
    match tag.wire_type with
    | WireType.VarInt =>
        (base128_vlq rest).map fun v => ⟨tag.tag_number, WireValue.VarInt v⟩
    | WireType.Int64 =>
        (le_u64 rest).map fun v => ⟨tag.tag_number, WireValue.Int64 v⟩
    | WireType.LengthPrefixed =>
        (length_take rest).map fun d => ⟨tag.tag_number, WireValue.LengthPrefixed d⟩
    | WireType.StartGroup => .ok rest ⟨tag.tag_number, WireValue.StartGroup⟩
    | WireType.EndGroup => .ok rest ⟨tag.tag_number, WireValue.EndGroup⟩
    | WireType.Int32 =>
        (le_u32 rest).map fun v => ⟨tag.tag_number, WireValue.Int32 v⟩
  | .err => .err
  | .fail => .fail

/-- Fuelled unfolding of nom's `many0(complete(ProtoField::parse))` from
`fn protobuf` in `src/main.rs`: repeat the field parser, stopping (with
the fields collected so far) at the first recoverable error, and
propagating a fatal `Err::Failure`.  Since a successful field parse
always consumes at least one byte, fuel `input.length` is always enough
(`protobufF_congr` below); the nom loop needs no fuel because it is
imperative. -/
def protobufF : Nat → List Nat → PResult (List ProtoField)
  | 0, input => .ok input []
  | fuel + 1, input =>
    match ProtoField.parse input with
    | .ok rest f =>
      match protobufF fuel rest with
      | .ok rest' fs => .ok rest' (f :: fs)
      | .err => .err
      | .fail => .fail
    | .err => .ok input []
    | .fail => .fail

/-- The repeated field parser `fn protobuf` from `src/main.rs`. -/
def protobuf (input : List Nat) : PResult (List ProtoField) :=
  protobufF input.length input

/-- The exact-consumption decode `all_consuming(protobuf)` used both at
top level in `fn main` and on each length-prefixed payload in
`fn print_message`: succeeds only when the whole input is consumed. -/
def decode (input : List Nat) : Option (List ProtoField) :=
  match protobuf input with
  | .ok [] fields => some fields
  | _ => none

/-- Whether a byte is a UTF-8 continuation byte (`0x80..=0xBF`). -/
def isCont (b : Nat) : Bool := 0x80 ≤ b && b ≤ 0xBF

/-- UTF-8 decoder over a byte list, modelling Rust's
`String::from_utf8` validity exactly (RFC 3629 shortest forms, no
surrogates): `none` on any malformed sequence, otherwise the decoded
characters. -/
def utf8DecodeChars : List Nat → Option (List Char)
  | [] => some []
  | b :: rest =>
    if b ≤ 0x7F then
      match utf8DecodeChars rest with
      | some cs => some (Char.ofNat b :: cs)
      | none => none
    else if 0xC2 ≤ b && b ≤ 0xDF then
      match rest with
      | c1 :: rest' =>
        if isCont c1 then
          match utf8DecodeChars rest' with
          | some cs => some (Char.ofNat ((b - 0xC0) * 64 + (c1 - 0x80)) :: cs)
          | none => none
        else none
      | [] => none
    else if 0xE0 ≤ b && b ≤ 0xEF then
      match rest with
      | c1 :: c2 :: rest' =>
        if (if b = 0xE0 then 0xA0 ≤ c1 && c1 ≤ 0xBF
            else if b = 0xED then 0x80 ≤ c1 && c1 ≤ 0x9F
            else isCont c1) && isCont c2 then
          match utf8DecodeChars rest' with
          | some cs =>
              some (Char.ofNat ((b - 0xE0) * 4096 + (c1 - 0x80) * 64 + (c2 - 0x80)) :: cs)
          | none => none
        else none
      | _ => none
    else if 0xF0 ≤ b && b ≤ 0xF4 then
      match rest with
      | c1 :: c2 :: c3 :: rest' =>
        if (if b = 0xF0 then 0x90 ≤ c1 && c1 ≤ 0xBF
            else if b = 0xF4 then 0x80 ≤ c1 && c1 ≤ 0x8F
            else isCont c1) && isCont c2 && isCont c3 then
          match utf8DecodeChars rest' with
          | some cs =>
              some (Char.ofNat ((b - 0xF0) * 262144 + (c1 - 0x80) * 4096 +
                (c2 - 0x80) * 64 + (c3 - 0x80)) :: cs)
          | none => none
        else none
      | _ => none
    else none

/-- Rust's `String::from_utf8` on the payload's bytes: `some` of the
decoded string when the bytes are valid UTF-8, otherwise `none`. -/
def from_utf8 (d : List Nat) : Option String :=
  match utf8DecodeChars d with
  | some cs => some (String.mk cs)
  | none => none

/-- The heuristic classification of a length-prefixed payload, as
performed by the `WireValue::LengthPrefixed` arm of `fn print_message`
(`src/main.rs` lines 169-188): first try a full sub-message parse, then
UTF-8 text, then fall back to raw bytes. -/
inductive DecodedNode where
  | SubMessage (fields : List ProtoField)
  | Text (s : String)
  | RawBytes (d : List Nat)
deriving DecidableEq

/-- The classification decision inlined in `fn print_message`: submessage
if `all_consuming(protobuf)` succeeds, else text if `String::from_utf8`
succeeds, else raw bytes. -/
def classify (d : List Nat) : DecodedNode :=
  match decode d with
  | some fields => DecodedNode.SubMessage fields
  | none =>
    match from_utf8 d with
    | some str => DecodedNode.Text str
    | none => DecodedNode.RawBytes d

/-- The indentation emitted by `fn print_indent`: two spaces per level. -/
def indentStr (indent : Nat) : String := String.join (List.replicate indent "  ")

/-- One hex digit, lowercase, as produced by Rust's `LowerHex`. -/
def hexDigit (n : Nat) : Char :=
  if n < 10 then Char.ofNat (48 + n) else Char.ofNat (87 + n)

/-- A byte as Rust's `{:x?}` renders it: minimal lowercase hex digits,
so one digit for bytes below 0x10 and two digits otherwise. -/
def hexByte (b : Nat) : String :=
  if b < 16 then String.mk [hexDigit b]
  else String.mk [hexDigit (b / 16), hexDigit (b % 16)]

/-- A byte vector as Rust's `{:x?}` debug formatting renders `Vec<u8>`:
a bracketed, comma-separated list of `hexByte`s. -/
def hexList (d : List Nat) : String :=
  "[" ++ String.intercalate ", " (d.map hexByte) ++ "]"

/-- Size of a field for the renderer's recursion fuel: a length-prefixed
payload of `n` bytes costs `n + 1` (its encoding spends at least one tag
byte besides the payload), anything else costs 1. -/
def fieldSize (f : ProtoField) : Nat :=
  match f.value with
  | WireValue.LengthPrefixed d => 1 + d.length
  | _ => 1

/-- Total recursion fuel for rendering a field list. -/
def msgSize (fields : List ProtoField) : Nat := (fields.map fieldSize).sum

/-- Fuelled unfolding of `fn print_message` (`src/main.rs` lines
156-199), emitting one string per `println!`.  Numeric fields print
`"<tag>: <decimal>"` after `print_indent`; a length-prefixed payload
that re-parses completely prints as an indented brace-wrapped submessage
rendered one level deeper; otherwise valid UTF-8 prints as
`"<tag>: <string>"` and anything else as `"<tag>: <hex list>"` (the
source calls no `print_indent` in these last two arms); `StartGroup` and
`EndGroup` print nothing.  Fuel `msgSize fields` always suffices because
a decoded submessage is strictly smaller than its payload. -/
def print_messageF : Nat → Nat → List ProtoField → List String
  | 0, _, _ => []
  | fuel + 1, indent, fields =>
    match fields with
    | [] => []
    | field :: restFields =>
      (match field.value with
       | WireValue.VarInt v =>
           [indentStr indent ++ Nat.repr field.tag_number ++ ": " ++ Nat.repr v]
       | WireValue.Int64 v =>
           [indentStr indent ++ Nat.repr field.tag_number ++ ": " ++ Nat.repr v]
       | WireValue.LengthPrefixed d =>
         match decode d with
         | some fields' =>
             (indentStr indent ++ Nat.repr field.tag_number ++ ": \x7b")
               :: (print_messageF fuel (indent + 1) fields'
                 ++ [indentStr indent ++ "\x7d"])
         | none =>
           match from_utf8 d with
           | some str => [Nat.repr field.tag_number ++ ": " ++ str]
           | none => [Nat.repr field.tag_number ++ ": " ++ hexList d]
       | WireValue.StartGroup => []
       | WireValue.EndGroup => []
       | WireValue.Int32 v =>
           [indentStr indent ++ Nat.repr field.tag_number ++ ": " ++ Nat.repr v])
      ++ print_messageF fuel indent restFields

/-- The renderer `fn print_message`, as the list of lines it prints. -/
def print_message (indent : Nat) (fields : List ProtoField) : List String :=
  print_messageF (msgSize fields) indent fields

/-- The mathematical value of a terminated varint whose continuation
bytes are `lead` (in read order) and whose terminal byte is `tail`: the
first byte read contributes the least significant 7-bit group. -/
def vlqValue : List Nat → Nat → Nat
  | [], tail => tail &&& 0x7f
  | b :: bs, tail => (b &&& 0x7f) + 128 * vlqValue bs tail

/-- A byte list is exactly a concatenation of valid field encodings
decoding to the given field list. -/
inductive FieldStream : List Nat → List ProtoField → Prop where
  | nil : FieldStream [] []
  | cons {input rest : List Nat} {f : ProtoField} {fs : List ProtoField} :
      ProtoField.parse input = PResult.ok rest f → FieldStream rest fs →
      FieldStream input (f :: fs)

/-- `FieldSteps buf rest` means some fields parse from the front of
`buf`, leaving `rest` as the remaining input. -/
inductive FieldSteps : List Nat → List Nat → Prop where
  | refl (input : List Nat) : FieldSteps input input
  | cons {input mid rest : List Nat} {f : ProtoField} :
      ProtoField.parse input = PResult.ok mid f → FieldSteps mid rest →
      FieldSteps input rest

/-- A successful varint decode consumes at least one byte. -/
theorem base128_vlq_consumes (input rest : List Nat) (v : Nat)
    (h : base128_vlq input = PResult.ok rest v) : rest.length < input.length := by
  induction input generalizing rest v with
  | nil => simp [base128_vlq] at h
  | cons b bs ih =>
    simp only [base128_vlq] at h
    by_cases hb : b &&& 0x80 = 0
    · rw [if_pos hb] at h
      simp only [PResult.ok.injEq] at h
      obtain ⟨rfl, -⟩ := h
      simp
    · rw [if_neg hb] at h
      cases hr : base128_vlq bs with
      | ok r' v' =>
        rw [hr] at h
        simp only [PResult.ok.injEq] at h
        obtain ⟨rfl, -⟩ := h
        exact Nat.lt_trans (ih r' v' hr) (by simp)
      | err => rw [hr] at h; cases h
      | fail => rw [hr] at h; cases h

/-- A successful `take` leaves a suffix no longer than its input. -/
theorem take_consumes (count : Nat) (input rest : List Nat) (d : List Nat)
    (h : take count input = PResult.ok rest d) : rest.length ≤ input.length := by
  unfold take at h
  split at h
  · simp only [PResult.ok.injEq] at h
    obtain ⟨rfl, -⟩ := h
    simp
  · cases h

/-- A successful length-prefixed read consumes at least one byte. -/
theorem length_take_consumes (input rest : List Nat) (d : List Nat)
    (h : length_take input = PResult.ok rest d) : rest.length < input.length := by
  unfold length_take at h
  cases hv : base128_vlq input with
  | ok mid n =>
    rw [hv] at h
    exact Nat.lt_of_le_of_lt (take_consumes n mid rest d h)
      (base128_vlq_consumes input mid n hv)
  | err => rw [hv] at h; cases h
  | fail => rw [hv] at h; cases h

/-- A successful `le_u32` leaves a suffix no longer than its input. -/
theorem le_u32_consumes (input rest : List Nat) (v : Nat)
    (h : le_u32 input = PResult.ok rest v) : rest.length ≤ input.length := by
  match input with
  | b0 :: b1 :: b2 :: b3 :: r =>
    simp only [le_u32, PResult.ok.injEq] at h
    obtain ⟨rfl, -⟩ := h
    simp only [List.length_cons]
    omega
  | [] => cases h
  | [_] => cases h
  | [_, _] => cases h
  | [_, _, _] => cases h

/-- A successful `le_u64` leaves a suffix no longer than its input. -/
theorem le_u64_consumes (input rest : List Nat) (v : Nat)
    (h : le_u64 input = PResult.ok rest v) : rest.length ≤ input.length := by
  match input with
  | b0 :: b1 :: b2 :: b3 :: b4 :: b5 :: b6 :: b7 :: r =>
    simp only [le_u64, PResult.ok.injEq] at h
    obtain ⟨rfl, -⟩ := h
    simp only [List.length_cons]
    omega
  | [] => cases h
  | [_] => cases h
  | [_, _] => cases h
  | [_, _, _] => cases h
  | [_, _, _, _] => cases h
  | [_, _, _, _, _] => cases h
  | [_, _, _, _, _, _] => cases h
  | [_, _, _, _, _, _, _] => cases h

/-- A successful tag parse consumes at least one byte. -/
theorem protoTag_parse_consumes (input rest : List Nat) (t : ProtoTag)
    (h : ProtoTag.parse input = PResult.ok rest t) : rest.length < input.length := by
  cases hv : base128_vlq input with
  | ok mid tag =>
    simp only [ProtoTag.parse, hv] at h
    have hlt := base128_vlq_consumes input mid tag hv
    split at h <;>
      first
        | (simp only [PResult.ok.injEq] at h; obtain ⟨rfl, -⟩ := h; exact hlt)
        | cases h
  | err => simp only [ProtoTag.parse, hv] at h; cases h
  | fail => simp only [ProtoTag.parse, hv] at h; cases h

/-- A successful field parse consumes at least one byte. -/
theorem protoField_parse_consumes (input rest : List Nat) (f : ProtoField)
    (h : ProtoField.parse input = PResult.ok rest f) : rest.length < input.length := by
  unfold ProtoField.parse at h
  cases ht : ProtoTag.parse input with
  | ok mid tag =>
    rw [ht] at h
    have hmid := protoTag_parse_consumes input mid tag ht
    cases tag with
    | mk wt n =>
      cases wt <;> simp only at h
      case StartGroup | EndGroup =>
        simp only [PResult.ok.injEq] at h
        obtain ⟨rfl, -⟩ := h
        exact hmid
      case VarInt =>
        cases hv : base128_vlq mid with
        | ok r' v' =>
          rw [hv] at h
          simp only [PResult.map, PResult.ok.injEq] at h
          obtain ⟨rfl, -⟩ := h
          exact Nat.lt_trans (base128_vlq_consumes mid r' v' hv) hmid
        | err => rw [hv] at h; cases h
        | fail => rw [hv] at h; cases h
      case Int64 =>
        cases hv : le_u64 mid with
        | ok r' v' =>
          rw [hv] at h
          simp only [PResult.map, PResult.ok.injEq] at h
          obtain ⟨rfl, -⟩ := h
          exact Nat.lt_of_le_of_lt (le_u64_consumes mid r' v' hv) hmid
        | err => rw [hv] at h; cases h
        | fail => rw [hv] at h; cases h
      case LengthPrefixed =>
        cases hv : length_take mid with
        | ok r' v' =>
          rw [hv] at h
          simp only [PResult.map, PResult.ok.injEq] at h
          obtain ⟨rfl, -⟩ := h
          exact Nat.lt_trans (length_take_consumes mid r' v' hv) hmid
        | err => rw [hv] at h; cases h
        | fail => rw [hv] at h; cases h
      case Int32 =>
        cases hv : le_u32 mid with
        | ok r' v' =>
          rw [hv] at h
          simp only [PResult.map, PResult.ok.injEq] at h
          obtain ⟨rfl, -⟩ := h
          exact Nat.lt_of_le_of_lt (le_u32_consumes mid r' v' hv) hmid
        | err => rw [hv] at h; cases h
        | fail => rw [hv] at h; cases h
  | err => rw [ht] at h; cases h
  | fail => rw [ht] at h; cases h

/-- Any fuel at least the input length computes `protobuf`. -/
theorem protobufF_congr (fuel : Nat) :
    ∀ input : List Nat, input.length ≤ fuel → protobufF fuel input = protobuf input := by
  induction fuel using Nat.strong_induction_on with
  | _ fuel ih =>
    intro input hlen
    match fuel, input with
    | 0, [] => rfl
    | 0, b :: bs => simp at hlen
    | fuel + 1, [] => rfl
    | fuel + 1, b :: bs =>
      show protobufF (fuel + 1) (b :: bs) = protobufF (b :: bs).length (b :: bs)
      have hlen' : bs.length + 1 ≤ fuel + 1 := by simpa using hlen
      cases hp : ProtoField.parse (b :: bs) with
      | ok mid f =>
        have hmid : mid.length < bs.length + 1 := by
          have := protoField_parse_consumes (b :: bs) mid f hp
          simpa using this
        have h1 : protobufF fuel mid = protobuf mid :=
          ih fuel (Nat.lt_succ_self fuel) mid (by omega)
        have h2 : protobufF bs.length mid = protobuf mid :=
          ih bs.length (by omega) mid (by omega)
        simp only [List.length_cons, protobufF, hp, h1, h2]
      | err => simp only [List.length_cons, protobufF, hp]
      | fail => simp only [List.length_cons, protobufF, hp]

/-- A full-consumption run of the fuelled field loop yields a valid
field stream for the whole input. -/
theorem protobufF_fieldStream (fuel : Nat) :
    ∀ (input : List Nat) (fs : List ProtoField),
      protobufF fuel input = PResult.ok [] fs → FieldStream input fs := by
  induction fuel with
  | zero =>
    intro input fs h
    simp only [protobufF, PResult.ok.injEq] at h
    obtain ⟨rfl, rfl⟩ := h
    exact FieldStream.nil
  | succ fuel ih =>
    intro input fs h
    cases hp : ProtoField.parse input with
    | ok mid f =>
      simp only [protobufF, hp] at h
      cases hr : protobufF fuel mid with
      | ok r' fs' =>
        simp only [hr, PResult.ok.injEq] at h
        obtain ⟨rfl, rfl⟩ := h
        exact FieldStream.cons hp (ih mid fs' hr)
      | err => simp only [hr] at h; cases h
      | fail => simp only [hr] at h; cases h
    | err =>
      simp only [protobufF, hp, PResult.ok.injEq] at h
      obtain ⟨rfl, rfl⟩ := h
      exact FieldStream.nil
    | fail => simp only [protobufF, hp] at h; cases h

/-- A valid field stream is accepted by `protobuf` with nothing left. -/
theorem fieldStream_protobuf {input : List Nat} {fs : List ProtoField}
    (h : FieldStream input fs) : protobuf input = PResult.ok [] fs := by
  induction h with
  | nil => rfl
  | cons hp hs ih =>
    rename_i input mid f fs'
    have hc := protoField_parse_consumes input mid f hp
    obtain ⟨k, hk⟩ : ∃ k, input.length = k + 1 := ⟨input.length - 1, by omega⟩
    unfold protobuf
    rw [hk]
    simp only [protobufF, hp]
    rw [protobufF_congr k mid (by omega), ih]

/-- A fatal failure at the current position aborts the whole buffer. -/
theorem fieldSteps_fail {buf input : List Nat} (h : FieldSteps buf input)
    (hf : protobuf input = PResult.fail) : protobuf buf = PResult.fail := by
  induction h with
  | refl _ => exact hf
  | cons hp hs ih =>
    rename_i buf' mid rest' f
    have hc := protoField_parse_consumes buf' mid f hp
    obtain ⟨k, hk⟩ : ∃ k, buf'.length = k + 1 := ⟨buf'.length - 1, by omega⟩
    unfold protobuf
    rw [hk]
    simp only [protobufF, hp]
    rw [protobufF_congr k mid (by omega), ih hf]

/-- The varint decoder on a terminated varint: the groups assemble in
LEB128 order and the result wraps modulo 2^64. -/
theorem base128_vlq_spec (lead : List Nat) (tail : Nat) (rest : List Nat)
    (hlead : ∀ b ∈ lead, b &&& 0x80 ≠ 0) (htail : tail &&& 0x80 = 0) :
    base128_vlq (lead ++ tail :: rest) =
      PResult.ok rest (vlqValue lead tail % 18446744073709551616) := by
  induction lead with
  | nil =>
    simp only [List.nil_append, base128_vlq, htail, if_pos, vlqValue]
    have hlt : tail &&& 0x7f < 18446744073709551616 :=
      lt_of_le_of_lt Nat.and_le_right (by norm_num)
    rw [Nat.mod_eq_of_lt hlt]
  | cons b bs ih =>
    have hb : ¬(b &&& 0x80 = 0) := hlead b (by simp)
    have ih' := ih (fun x hx => hlead x (by simp [hx]))
    simp only [List.cons_append, base128_vlq, List.append_eq]
    rw [if_neg hb]
    simp only [ih', vlqValue]
    congr 1
    generalize b &&& 0x7f = c
    generalize vlqValue bs tail = x
    omega

/-- Rendering the empty field list emits nothing, whatever the fuel. -/
theorem print_messageF_nil (fuel indent : Nat) :
    print_messageF fuel indent [] = [] := by
  cases fuel <;> rfl

/-- Claim C1: the resolver tries SubMessage, then Text, then RawBytes in
that fixed order, so a length-prefixed payload that parses as a complete
field stream consuming the payload exactly is classified `SubMessage`
even when it is also valid UTF-8 — never `Text`. -/
theorem C1_submessage_priority (d : List Nat) (fs : List ProtoField)
    (hsub : decode d = some fs) (_hutf : (from_utf8 d).isSome = true) :
    classify d = DecodedNode.SubMessage fs := by
  unfold classify
  rw [hsub]

/-- Witness for C1 at the empty payload, which is simultaneously a
complete (empty) field stream and valid UTF-8. -/
theorem C1_submessage_priority_witness :
    decode ([] : List Nat) = some [] ∧
    (from_utf8 ([] : List Nat)).isSome = true ∧
    classify ([] : List Nat) = DecodedNode.SubMessage [] :=
  ⟨rfl, rfl, C1_submessage_priority [] [] rfl rfl⟩

/-- Claim C2: on a terminated varint (continuation bytes `lead`, then a
terminal byte `tail`), `base128_vlq` returns the standard unsigned
LEB128 value — the first byte read gives the least significant 7 bits —
whenever that value fits in 64 bits; in particular `0x08 0x96 0x01`
decodes to exactly one field with field number 1, wire type VarInt and
value 150. -/
theorem C2_leb128 (lead : List Nat) (tail : Nat) (rest : List Nat)
    (hlead : ∀ b ∈ lead, b &&& 0x80 ≠ 0) (htail : tail &&& 0x80 = 0)
    (hbound : vlqValue lead tail < 2 ^ 64) :
    base128_vlq (lead ++ tail :: rest) = PResult.ok rest (vlqValue lead tail) ∧
    decode [0x08, 0x96, 0x01] = some [⟨1, WireValue.VarInt 150⟩] := by
  constructor
  · rw [base128_vlq_spec lead tail rest hlead htail]
    rw [Nat.mod_eq_of_lt (by norm_num at hbound ⊢; exact hbound)]
  · rfl

/-- Witness for C2 at the spec's example varint `0x96 0x01` (= 150). -/
theorem C2_leb128_witness :
    base128_vlq [0x96, 0x01] = PResult.ok [] 150 ∧
    decode [0x08, 0x96, 0x01] = some [⟨1, WireValue.VarInt 150⟩] := by
  have h := C2_leb128 [0x96] 0x01 [] (by decide) (by decide) (by decide)
  exact ⟨h.1, h.2⟩

/-- Claim C3 is violated by the code: in the buffer
`0x0A 0x03 0x0A 0x01 0x61` the inner payload `0x61` (`"a"`) sits at
nesting depth 1, yet its Text line is emitted as `"1: a"` with no
leading spaces, because the Text (and RawBytes) arms of
`fn print_message` never call `print_indent`.  The claimed two-space
indentation would give `"  1: a"`. -/
theorem C3_text_line_not_indented :
    decode [0x0A, 0x03, 0x0A, 0x01, 0x61] =
      some [⟨1, WireValue.LengthPrefixed [0x0A, 0x01, 0x61]⟩] ∧
    print_message 0 [⟨1, WireValue.LengthPrefixed [0x0A, 0x01, 0x61]⟩] =
      ["1: \x7b", "1: a", "\x7d"] ∧
    "1: a" ≠ "  1: a" := by
  refine ⟨rfl, by decide, by decide⟩

/-- Claim C4: the top-level decode is all-or-nothing — it returns a
message exactly when the whole buffer is a concatenation of valid field
encodings, with no partial result otherwise. -/
theorem C4_all_or_nothing (input : List Nat) (fs : List ProtoField) :
    decode input = some fs ↔ FieldStream input fs := by
  constructor
  · intro h
    unfold decode at h
    split at h
    · rename_i heq
      injection h with h'
      subst h'
      unfold protobuf at heq
      exact protobufF_fieldStream input.length input _ heq
    · cases h
  · intro h
    unfold decode
    rw [fieldStream_protobuf h]

/-- Claim C5: the heuristic resolver is total — every payload is
classified as exactly one of SubMessage, Text or RawBytes, with failures
of the earlier rules falling through rather than propagating. -/
theorem C5_classify_total (d : List Nat) :
    (∃ fs, classify d = DecodedNode.SubMessage fs) ∨
    (∃ s, classify d = DecodedNode.Text s) ∨
    classify d = DecodedNode.RawBytes d := by
  unfold classify
  cases hd : decode d with
  | some fs => exact Or.inl ⟨fs, rfl⟩
  | none =>
    cases hu : from_utf8 d with
    | some s => exact Or.inr (Or.inl ⟨s, rfl⟩)
    | none => exact Or.inr (Or.inr rfl)

/-- Claim C6: a tag varint whose low 3 bits are 6 or 7 makes the tag
parser raise nom's fatal `Err::Failure` (the spec's `InvalidWireType`),
and that failure aborts decoding of the entire buffer — the repeated
field loop does not treat it as end-of-stream; low 3 bits 0 through 5
map to VarInt, Int64, LengthPrefixed, StartGroup, EndGroup and Int32,
with the field number equal to the tag value shifted right by 3. -/
theorem C6_wire_types (input rest : List Nat) (tag : Nat)
    (h : base128_vlq input = PResult.ok rest tag) :
    ((tag &&& 7 = 6 ∨ tag &&& 7 = 7) →
       ProtoTag.parse input = PResult.fail ∧
       ProtoField.parse input = PResult.fail ∧
       protobuf input = PResult.fail ∧
       ∀ buf, FieldSteps buf input → decode buf = none) ∧
    (tag &&& 7 = 0 →
       ProtoTag.parse input = PResult.ok rest ⟨WireType.VarInt, tag >>> 3⟩) ∧
    (tag &&& 7 = 1 →
       ProtoTag.parse input = PResult.ok rest ⟨WireType.Int64, tag >>> 3⟩) ∧
    (tag &&& 7 = 2 →
       ProtoTag.parse input = PResult.ok rest ⟨WireType.LengthPrefixed, tag >>> 3⟩) ∧
    (tag &&& 7 = 3 →
       ProtoTag.parse input = PResult.ok rest ⟨WireType.StartGroup, tag >>> 3⟩) ∧
    (tag &&& 7 = 4 →
       ProtoTag.parse input = PResult.ok rest ⟨WireType.EndGroup, tag >>> 3⟩) ∧
    (tag &&& 7 = 5 →
       ProtoTag.parse input = PResult.ok rest ⟨WireType.Int32, tag >>> 3⟩) := by
  refine ⟨?_, ?_, ?_, ?_, ?_, ?_, ?_⟩
  · intro h67
    have htag : ProtoTag.parse input = PResult.fail := by
      simp only [ProtoTag.parse, h]
      rcases h67 with h6 | h6 <;> rw [h6]
    have hfield : ProtoField.parse input = PResult.fail := by
      simp only [ProtoField.parse, htag]
    have hne : 1 ≤ input.length := by
      have := base128_vlq_consumes input rest tag h
      omega
    have hpb : protobuf input = PResult.fail := by
      obtain ⟨k, hk⟩ : ∃ k, input.length = k + 1 := ⟨input.length - 1, by omega⟩
      unfold protobuf
      rw [hk]
      simp only [protobufF, hfield]
    refine ⟨htag, hfield, hpb, fun buf hsteps => ?_⟩
    have hbuf := fieldSteps_fail hsteps hpb
    unfold decode
    rw [hbuf]
  · intro hc
    simp only [ProtoTag.parse, h]
    rw [hc]
  · intro hc
    simp only [ProtoTag.parse, h]
    rw [hc]
  · intro hc
    simp only [ProtoTag.parse, h]
    rw [hc]
  · intro hc
    simp only [ProtoTag.parse, h]
    rw [hc]
  · intro hc
    simp only [ProtoTag.parse, h]
    rw [hc]
  · intro hc
    simp only [ProtoTag.parse, h]
    rw [hc]

/-- Witness for C6: tag byte `0x0E` has low bits 6 and makes the whole
decode fail fatally; tag byte `0x08` has low bits 0 and field number 1. -/
theorem C6_wire_types_witness :
    ProtoTag.parse [0x0E] = PResult.fail ∧
    ProtoField.parse [0x0E] = PResult.fail ∧
    protobuf [0x0E] = PResult.fail ∧
    decode [0x0E] = none ∧
    ProtoTag.parse [0x08] = PResult.ok [] ⟨WireType.VarInt, 1⟩ := by
  have h6 := (C6_wire_types [0x0E] [] 14 rfl).1 (Or.inl rfl)
  have h0 := (C6_wire_types [0x08] [] 8 rfl).2.1 rfl
  exact ⟨h6.1, h6.2.1, h6.2.2.1, h6.2.2.2 [0x0E] (FieldSteps.refl [0x0E]), h0⟩

/-- Claim C7: `length_take` decodes a varint length `n` and then
consumes exactly `n` bytes as the payload — never fewer, never more —
and fails recoverably (the spec's `UnexpectedEnd`) when fewer than `n`
bytes remain after the length varint. -/
theorem C7_length_prefixed (input rest : List Nat) (n : Nat)
    (h : base128_vlq input = PResult.ok rest n) :
    (n ≤ rest.length →
       length_take input = PResult.ok (rest.drop n) (rest.take n) ∧
       (rest.take n).length = n ∧ rest.take n ++ rest.drop n = rest) ∧
    (rest.length < n → length_take input = PResult.err) := by
  constructor
  · intro hle
    refine ⟨?_, ?_, List.take_append_drop n rest⟩
    · simp only [length_take, h, take, if_pos hle]
    · simp [List.length_take, Nat.min_eq_left hle]
  · intro hlt
    simp only [length_take, h, take]
    rw [if_neg (by omega)]

/-- Witness for C7: length 2 of 3 available bytes takes exactly the
first two; length 5 of 1 available byte fails. -/
theorem C7_length_prefixed_witness :
    length_take [0x02, 0xAA, 0xBB, 0xCC] = PResult.ok [0xCC] [0xAA, 0xBB] ∧
    length_take [0x05, 0x01] = PResult.err := by
  have h1 := (C7_length_prefixed [0x02, 0xAA, 0xBB, 0xCC] [0xAA, 0xBB, 0xCC] 2 rfl).1
    (by decide)
  have h2 := (C7_length_prefixed [0x05, 0x01] [0x01] 5 rfl).2 (by decide)
  exact ⟨h1.1, h2⟩

/-- Claim C8: `StartGroup` and `EndGroup` fields carry no payload — the
input cursor after the field equals the cursor after its tag — and the
renderer emits no lines for them. -/
theorem C8_groups (input rest : List Nat) (n indent : Nat) :
    (ProtoTag.parse input = PResult.ok rest ⟨WireType.StartGroup, n⟩ →
       ProtoField.parse input = PResult.ok rest ⟨n, WireValue.StartGroup⟩) ∧
    (ProtoTag.parse input = PResult.ok rest ⟨WireType.EndGroup, n⟩ →
       ProtoField.parse input = PResult.ok rest ⟨n, WireValue.EndGroup⟩) ∧
    print_message indent [⟨n, WireValue.StartGroup⟩] = [] ∧
    print_message indent [⟨n, WireValue.EndGroup⟩] = [] := by
  refine ⟨?_, ?_, rfl, rfl⟩
  · intro h
    simp only [ProtoField.parse, h]
  · intro h
    simp only [ProtoField.parse, h]

/-- Witness for C8: tag bytes `0x0B`/`0x0C` (field 1, wire types 3/4)
decode to group markers consuming no payload and render to nothing. -/
theorem C8_groups_witness :
    ProtoField.parse [0x0B] = PResult.ok [] ⟨1, WireValue.StartGroup⟩ ∧
    ProtoField.parse [0x0C] = PResult.ok [] ⟨1, WireValue.EndGroup⟩ ∧
    print_message 5 [⟨1, WireValue.StartGroup⟩] = [] ∧
    print_message 5 [⟨1, WireValue.EndGroup⟩] = [] := by
  have h1 := C8_groups [0x0B] [] 1 5
  have h2 := C8_groups [0x0C] [] 1 5
  exact ⟨h1.1 (by decide), h2.2.1 (by decide), h1.2.2.1, h1.2.2.2⟩

/-- Claim C9: `base128_vlq` bounds neither the number of 7-bit groups
nor the decoded magnitude: any terminated varint decodes successfully to
the group sum reduced modulo 2^64. -/
theorem C9_varint_wraps (lead : List Nat) (tail : Nat) (rest : List Nat)
    (hlead : ∀ b ∈ lead, b &&& 0x80 ≠ 0) (htail : tail &&& 0x80 = 0) :
    base128_vlq (lead ++ tail :: rest) =
      PResult.ok rest (vlqValue lead tail % 2 ^ 64) := by
  rw [base128_vlq_spec lead tail rest hlead htail]
  norm_num

/-- Witness for C9: a 10-byte varint encoding 2^70 - 1 decodes, wrapped
to 2^64 - 1. -/
theorem C9_varint_wraps_witness :
    base128_vlq (List.replicate 9 0xFF ++ [0x7F]) =
      PResult.ok [] 18446744073709551615 := by
  rw [C9_varint_wraps (List.replicate 9 0xFF) 0x7F [] (by decide) (by decide)]
  decide

/-- Claim C10 is violated by the code: `{:x?}` renders each byte with
minimal lowercase hex digits, so payload byte `0x0F` of a RawBytes
payload appears as the single digit `"f"`, not a two-digit pair. -/
theorem C10_hex_pairs_counterexample :
    classify [0x0F, 0xFF] = DecodedNode.RawBytes [0x0F, 0xFF] ∧
    print_message 0 [⟨1, WireValue.LengthPrefixed [0x0F, 0xFF]⟩] = ["1: [f, ff]"] ∧
    (hexByte 0x0F).length = 1 := by
  exact ⟨by decide, by decide, by decide⟩

/-- Claim C10 as amended: a RawBytes payload renders as a bracketed,
comma-separated list in which each byte appears as its minimal lowercase
hex digits — one digit for bytes below 0x10, two digits for bytes 0x10
through 0xFF. -/
theorem C10_hex_rendering (d : List Nat) (n indent b : Nat)
    (h : classify d = DecodedNode.RawBytes d) (_hb : b ∈ d) (_hlt : b < 256) :
    print_message indent [⟨n, WireValue.LengthPrefixed d⟩] =
      [Nat.repr n ++ ": " ++ hexList d] ∧
    (hexByte b).length = if b < 16 then 1 else 2 := by
  constructor
  · have hdn : decode d = none := by
      unfold classify at h
      cases hd : decode d with
      | some fs => rw [hd] at h; exact DecodedNode.noConfusion h
      | none => rfl
    have hun : from_utf8 d = none := by
      unfold classify at h
      rw [hdn] at h
      cases hu : from_utf8 d with
      | some s => rw [hu] at h; exact DecodedNode.noConfusion h
      | none => rfl
    have hms : msgSize [(⟨n, WireValue.LengthPrefixed d⟩ : ProtoField)] = d.length + 1 := by
      simp only [msgSize, List.map_cons, List.map_nil, List.sum_cons, List.sum_nil,
        fieldSize]
      omega
    unfold print_message
    rw [hms]
    simp only [print_messageF, hdn, hun]
    rw [print_messageF_nil]
    simp
  · by_cases hb16 : b < 16 <;> simp [hexByte, hb16, String.length]

/-- Witness for C10's amended statement at payload `[0x0F, 0xFF]`. -/
theorem C10_hex_rendering_witness :
    print_message 0 [⟨1, WireValue.LengthPrefixed [0x0F, 0xFF]⟩] =
      [Nat.repr 1 ++ ": " ++ hexList [0x0F, 0xFF]] ∧
    (hexByte 0x0F).length = if 0x0F < 16 then 1 else 2 :=
  C10_hex_rendering [0x0F, 0xFF] 1 0 0x0F (by decide) (by decide) (by decide)
